import Mathlib

/-!
# Verification of the Mekasfi dashboard derived-metrics engine

Shallow embedding of the computational core of `src/app.py` (a Streamlit
dashboard over a daily fund/benchmark observation series):

* `process_data` (app.py lines 142-156): per-day unit value, daily returns
  (`pct_change`), chain-linked cumulative returns (`cumprod`) and spread.
* the weekly attribution section of `main` (app.py lines 343-385): the
  Monday-Friday day rows and the previous-week total row.
* the accumulated-variation section of `main` (app.py lines 400-443): the
  month-to-date / year-to-date / trailing-365-day / since-inception window
  returns.

Floating-point cells are modelled by `PVal`: a rational number or one of the
IEEE-754 specials `inf`, `-inf`, `nan` that numpy/pandas arithmetic produces
(float division by zero yields an infinity or nan, never an exception; a
missing value is `nan`).  Dates are modelled as integer day numbers since
1970-01-01 with explicit civil-calendar and ISO-week-date conversions, so
`Timestamp.year/month/weekday/isocalendar` and `timedelta` arithmetic have
exact counterparts.
-/

namespace MekasfiDash

/-! ## Floating-point cells -/

/-- A pandas float cell: a finite rational, +infinity, -infinity, or NaN
(NaN doubles as the missing-value marker, as in numpy float64). -/
inductive PVal where
  | num : ℚ → PVal
  | inf : PVal
  | ninf : PVal
  | nan : PVal
deriving DecidableEq, Repr

namespace PVal

/-- IEEE-style negation. -/
def pneg : PVal → PVal
  | num a => num (-a)
  | inf => ninf
  | ninf => inf
  | nan => nan

/-- IEEE-style addition as performed by numpy float64. -/
def padd : PVal → PVal → PVal
  | num a, num b => num (a + b)
  | num _, inf => inf
  | num _, ninf => ninf
  | inf, num _ => inf
  | ninf, num _ => ninf
  | inf, inf => inf
  | ninf, ninf => ninf
  | inf, ninf => nan
  | ninf, inf => nan
  | _, nan => nan
  | nan, _ => nan

/-- IEEE-style multiplication as performed by numpy float64
(an infinity times zero is NaN). -/
def pmul : PVal → PVal → PVal
  | num a, num b => num (a * b)
  | num a, inf => if 0 < a then inf else if a < 0 then ninf else nan
  | num a, ninf => if 0 < a then ninf else if a < 0 then inf else nan
  | inf, num b => if 0 < b then inf else if b < 0 then ninf else nan
  | ninf, num b => if 0 < b then ninf else if b < 0 then inf else nan
  | inf, inf => inf
  | ninf, ninf => inf
  | inf, ninf => ninf
  | ninf, inf => ninf
  | _, nan => nan
  | nan, _ => nan

/-- IEEE-style subtraction. -/
def psub (a b : PVal) : PVal := padd a (pneg b)

/-- IEEE-style division as performed by numpy float64: a finite value divided
by zero gives a signed infinity (`0/0` gives NaN), never an exception. -/
def pdiv : PVal → PVal → PVal
  | num a, num b =>
      if b = 0 then (if 0 < a then inf else if a < 0 then ninf else nan)
      else num (a / b)
  | num _, inf => num 0
  | num _, ninf => num 0
  | inf, num b => if b < 0 then ninf else inf
  | ninf, num b => if b < 0 then inf else ninf
  | inf, inf => nan
  | inf, ninf => nan
  | ninf, inf => nan
  | ninf, ninf => nan
  | _, nan => nan
  | nan, _ => nan

end PVal

/-! ## Calendar: civil dates and the ISO week-date calendar

A date is an integer count of days since 1970-01-01 (the unit in which
`timedelta(days=n)` acts by plain addition).  The conversions follow the
standard proleptic-Gregorian day-count algorithms. -/

/-- Day count since 1970-01-01 of the civil date `(y, m, d)`. -/
def daysFromCivil (y m d : ℤ) : ℤ :=
  let y' := y - (if m ≤ 2 then 1 else 0)
  let era := y'.fdiv 400
  let yoe := y' - era * 400
  let doy := (153 * (m + (if 2 < m then -3 else 9)) + 2).fdiv 5 + d - 1
  let doe := yoe * 365 + yoe.fdiv 4 - yoe.fdiv 100 + doy
  era * 146097 + doe - 719468

/-- The civil date `(y, m, d)` of a day count since 1970-01-01. -/
def civilFromDays (z : ℤ) : ℤ × ℤ × ℤ :=
  let z' := z + 719468
  let era := z'.fdiv 146097
  let doe := z' - era * 146097
  let yoe := (doe - doe.fdiv 1460 + doe.fdiv 36524 - doe.fdiv 146096).fdiv 365
  let y := yoe + era * 400
  let doy := doe - (365 * yoe + yoe.fdiv 4 - yoe.fdiv 100)
  let mp := (5 * doy + 2).fdiv 153
  let d := doy - (153 * mp + 2).fdiv 5 + 1
  let m := mp + (if mp < 3 then 3 else -9)
  (y + (if m ≤ 2 then 1 else 0), m, d)

/-- Convenience constructor for concrete dates. -/
def mkDate (y m d : ℤ) : ℤ := daysFromCivil y m d

/-- `Timestamp.year`. -/
def yearOf (z : ℤ) : ℤ := (civilFromDays z).1

/-- `Timestamp.month`. -/
def monthOf (z : ℤ) : ℤ := (civilFromDays z).2.1

/-- `date.weekday()`: Monday = 0 .. Sunday = 6 (1970-01-01 was a Thursday). -/
def pyWeekday (z : ℤ) : ℤ := (z + 3) % 7

/-- ISO weekday: Monday = 1 .. Sunday = 7. -/
def isoWeekday (z : ℤ) : ℤ := pyWeekday z + 1

/-- Weekday (0 = Sunday convention) of 31 December of year `y`; auxiliary to
the ISO week count of a year. -/
def isoP (y : ℤ) : ℤ := (y + y.fdiv 4 - y.fdiv 100 + y.fdiv 400) % 7

/-- Number of ISO weeks (52 or 53) in ISO year `y`. -/
def weeksInYear (y : ℤ) : ℤ := if isoP y = 4 ∨ isoP (y - 1) = 3 then 53 else 52

/-- Ordinal day-of-year (1-based) of a day count. -/
def ordinalOf (z : ℤ) : ℤ := z - daysFromCivil (yearOf z) 1 1 + 1

/-- `date.isocalendar()`'s (ISO year, ISO week number) pair. -/
def isoYearWeek (z : ℤ) : ℤ × ℤ :=
  let y := yearOf z
  let w := (ordinalOf z - isoWeekday z + 10).fdiv 7
  if w < 1 then (y - 1, weeksInYear (y - 1))
  else if weeksInYear y < w then (y + 1, 1)
  else (y, w)

/-- `date.isocalendar()[1]`, the bare ISO week number. -/
def isoWeekNum (z : ℤ) : ℤ := (isoYearWeek z).2

example : civilFromDays 0 = (1970, 1, 1) := by decide
example : mkDate 1970 1 1 = 0 := by decide
example : civilFromDays (mkDate 2024 2 29) = (2024, 2, 29) := by decide
example : pyWeekday (mkDate 2024 1 1) = 0 := by decide
example : isoYearWeek (mkDate 2024 1 3) = (2024, 1) := by decide
example : isoYearWeek (mkDate 2024 12 30) = (2025, 1) := by decide
example : isoYearWeek (mkDate 2025 1 1) = (2025, 1) := by decide
example : isoYearWeek (mkDate 2025 1 8) = (2025, 2) := by decide
example : isoYearWeek (mkDate 2025 3 14) = (2025, 11) := by decide

/-! ## The data frame

The MKSF sheet, date-indexed, with the raw columns `PL_MKSF`, `Qtd_Cotas`,
`IBOV` (plain numbers) and the six derived float columns that
`process_data` fills in.  A raw frame has the derived columns empty.
Per the loader's data contract the index is the strictly increasing list of
trading dates. -/

structure DFrame where
  dates : List ℤ
  pl_mksf : List ℚ
  qtd_cotas : List ℚ
  ibov : List ℚ
  cotaMKSF : List PVal
  ibovDaily : List PVal
  mksfDaily : List PVal
  ibovAcum : List PVal
  mksfAcum : List PVal
  spread : List PVal
deriving DecidableEq, Repr

instance : Inhabited DFrame := ⟨⟨[], [], [], [], [], [], [], [], [], []⟩⟩

/-- View a raw numeric column as a float column. -/
def numCol (xs : List ℚ) : List PVal := xs.map PVal.num

/-- Elementwise division of two raw columns (numpy float semantics). -/
def divCols (xs ys : List ℚ) : List PVal :=
  List.zipWith (fun a b => PVal.pdiv (PVal.num a) (PVal.num b)) xs ys

/-- Elementwise subtraction of two float columns. -/
def subCols (xs ys : List PVal) : List PVal := List.zipWith PVal.psub xs ys

/-- Tail of `Series.pct_change`: each element divided by its positional
predecessor, minus 1. -/
def pctAux : PVal → List PVal → List PVal
  | _, [] => []
  | prev, x :: xs => PVal.psub (PVal.pdiv x prev) (PVal.num 1) :: pctAux x xs

/-- `Series.pct_change()`: NaN at the first position, then the ratio to the
positional predecessor minus 1. -/
def pct_change : List PVal → List PVal
  | [] => []
  | x :: xs => PVal.nan :: pctAux x xs

/-- `Series.cumprod()` with the default `skipna=True`: a NaN input cell stays
NaN in the output and is skipped by the running product. -/
def cumprodAux : PVal → List PVal → List PVal
  | _, [] => []
  | acc, x :: xs =>
      if x = PVal.nan then PVal.nan :: cumprodAux acc xs
      else PVal.pmul acc x :: cumprodAux (PVal.pmul acc x) xs

/-- `(1 + daily).cumprod() - 1` (app.py lines 152-153). -/
def cumRet (daily : List PVal) : List PVal :=
  (cumprodAux (PVal.num 1) (daily.map (PVal.padd (PVal.num 1)))).map
    (fun v => PVal.psub v (PVal.num 1))

/-- `process_data` (app.py lines 142-156).  The Python function copies the
frame and then assigns the six derived columns in order, each assignment
reading the columns already present; value-semantics record updates model the
writes to the private copy. -/
def process_data (df0 : DFrame) : DFrame :=
  let df1 := { df0 with cotaMKSF := divCols df0.pl_mksf df0.qtd_cotas }
  let df2 := { df1 with ibovDaily := pct_change (numCol df1.ibov) }
  let df3 := { df2 with mksfDaily := pct_change df2.cotaMKSF }
  let df4 := { df3 with ibovAcum := cumRet df3.ibovDaily }
  let df5 := { df4 with mksfAcum := cumRet df4.mksfDaily }
  { df5 with spread := subCols df5.mksfAcum df5.ibovAcum }

/-! ## Heap-level view of `process_data` (for the frame condition)

In Python the caller passes a reference to a DataFrame object; `df = df.copy()`
allocates a fresh object and the column assignments mutate only that copy.
A heap is a list of frame objects and a reference is an index into it. -/

abbrev Heap := List DFrame

/-- In-place mutation of the object at reference `r`. -/
def heapMod (h : Heap) (r : ℕ) (f : DFrame → DFrame) : Heap :=
  List.set h r (f (List.getD h r default))

/-- `df_mksf = process_data(df_mksf)` at the heap level: allocate the copy,
run the six column assignments on it, return the new reference. -/
def process_data_heap (h : Heap) (r : ℕ) : Heap × ℕ :=
  let r1 := List.length h
  let h1 : Heap := h ++ [List.getD h r default]
  let h2 := heapMod h1 r1 (fun df => { df with cotaMKSF := divCols df.pl_mksf df.qtd_cotas })
  let h3 := heapMod h2 r1 (fun df => { df with ibovDaily := pct_change (numCol df.ibov) })
  let h4 := heapMod h3 r1 (fun df => { df with mksfDaily := pct_change df.cotaMKSF })
  let h5 := heapMod h4 r1 (fun df => { df with ibovAcum := cumRet df.ibovDaily })
  let h6 := heapMod h5 r1 (fun df => { df with mksfAcum := cumRet df.mksfDaily })
  let h7 := heapMod h6 r1 (fun df => { df with spread := subCols df.mksfAcum df.ibovAcum })
  (h7, r1)

/-! ## Index operations

`Index.min()` / `Index.max()` return the least / greatest label, or NaT
(modelled `none`) on an empty selection.  `df.loc[d, col]` raises `KeyError`
when the label is absent, modelled by `Except Unit`; `df.loc[c:]` slices the
(sorted, per the data contract) index from label `c`. -/

def idxMin : List ℤ → Option ℤ
  | [] => none
  | x :: xs => match idxMin xs with
    | none => some x
    | some m => some (min x m)

def idxMax : List ℤ → Option ℤ
  | [] => none
  | x :: xs => match idxMax xs with
    | none => some x
    | some m => some (max x m)

/-- Position of a date label in the index (pandas `Index.get_loc` for a
unique index). -/
def locDate (dates : List ℤ) (d : ℤ) : Option ℕ :=
  match dates with
  | [] => none
  | x :: xs => if x = d then some 0 else (locDate xs d).map (· + 1)

/-- `df.loc[d, col]` for a float column: `KeyError` when `d` is not in the
index. -/
def locP (df : DFrame) (col : List PVal) (d : ℤ) : Except Unit PVal :=
  match locDate df.dates d with
  | none => Except.error ()
  | some i => Except.ok (col.getD i PVal.nan)

/-! ## Accumulated-variation windows (app.py lines 400-433)

`ultima_data` (the reference date) is `df.index.max()`.  Each window resolves
a start date from the index and then divides the column value at the
reference date by the value at the start date directly. -/

/-- Month window start (lines 404-407): minimum index date in the reference
date's calendar year and month. -/
def resolve_mes (dates : List ℤ) (ref : ℤ) : Option ℤ :=
  idxMin (dates.filter (fun d => yearOf d = yearOf ref ∧ monthOf d = monthOf ref))

/-- Year window start (line 414): minimum index date in the reference date's
calendar year. -/
def resolve_ano (dates : List ℤ) (ref : ℤ) : Option ℤ :=
  idxMin (dates.filter (fun d => yearOf d = yearOf ref))

/-- Trailing-12-month window start (lines 421-422):
`df.loc[ultima_data - 365 days :].index.min()`, the minimum index date at or
after the cutoff. -/
def resolve_12m (dates : List ℤ) (ref : ℤ) : Option ℤ :=
  idxMin (dates.filter (fun d => ref - 365 ≤ d))

/-- Since-inception start (line 429): `df.index.min()`. -/
def resolve_inicio (dates : List ℤ) : Option ℤ := idxMin dates

/-- `df.loc[ref, col] / df.loc[start, col] - 1`.  A `none` start is NaT, on
which `.loc` raises `KeyError`. -/
def windowVar (df : DFrame) (col : List PVal) (start : Option ℤ) (ref : ℤ) :
    Except Unit PVal :=
  match start with
  | none => Except.error ()
  | some s => do
      let vEnd ← locP df col ref
      let vStart ← locP df col s
      Except.ok (PVal.psub (PVal.pdiv vEnd vStart) (PVal.num 1))

/-- The four-window summary table (lines 400-443): for each of month, year,
trailing-365-days and since-inception, the pair (Mekasfi variation, Ibovespa
variation). -/
def resumo (df : DFrame) (ref : ℤ) : Except Unit (List (PVal × PVal)) := do
  let mkMes ← windowVar df df.cotaMKSF (resolve_mes df.dates ref) ref
  let ibMes ← windowVar df (numCol df.ibov) (resolve_mes df.dates ref) ref
  let mkAno ← windowVar df df.cotaMKSF (resolve_ano df.dates ref) ref
  let ibAno ← windowVar df (numCol df.ibov) (resolve_ano df.dates ref) ref
  let mk12m ← windowVar df df.cotaMKSF (resolve_12m df.dates ref) ref
  let ib12m ← windowVar df (numCol df.ibov) (resolve_12m df.dates ref) ref
  let mkIni ← windowVar df df.cotaMKSF (resolve_inicio df.dates) ref
  let ibIni ← windowVar df (numCol df.ibov) (resolve_inicio df.dates) ref
  Except.ok [(mkMes, ibMes), (mkAno, ibAno), (mk12m, ib12m), (mkIni, ibIni)]

/-! ## Weekly attribution (app.py lines 343-385) -/

/-- Previous-week anchor (lines 347-350): the maximum index date whose bare
ISO week number equals the ISO week number of `ref - 1 week`; NaT (`none`)
when no index date matches. -/
def resolve_prev_week (dates : List ℤ) (ref : ℤ) : Option ℤ :=
  idxMax (dates.filter (fun d => isoWeekNum d = isoWeekNum (ref - 7)))

/-- The five weekday slots Monday..Friday of `ref`'s week (lines 352-356). -/
def data_semana (ref : ℤ) : List ℤ :=
  (List.range 5).map (fun i => (ref - pyWeekday ref) + (i : ℤ))

/-- One day row of the weekly table (lines 365-368): daily returns when the
slot date is present in the index, blank cells otherwise. -/
def weekCell (df : DFrame) (d : ℤ) : ℤ × Option (PVal × PVal) :=
  match locDate df.dates d with
  | none => (d, none)
  | some i => (d, some (df.mksfDaily.getD i PVal.nan, df.ibovDaily.getD i PVal.nan))

/-- The weekly table: five day rows plus the optional week-total row
(lines 352-385).  The total row is computed only when the previous-week
anchor resolved (`bool(pd.NaT)` is false, so the `if` guard on line 373
skips the row when it did not); when computed it divides `CotaMKSF` and
`IBOV` at `ref` by their values at the anchor date. -/
structure WeekTable where
  days : List (ℤ × Option (PVal × PVal))
  total : Option (PVal × PVal)
deriving DecidableEq, Repr

def buildWeekly (df : DFrame) (ref : ℤ) : Except Unit WeekTable := do
  let days := (data_semana ref).map (weekCell df)
  match resolve_prev_week df.dates ref with
  | none => Except.ok ⟨days, none⟩
  | some anchor => do
      let ce ← locP df df.cotaMKSF ref
      let cs ← locP df df.cotaMKSF anchor
      let be ← locP df (numCol df.ibov) ref
      let bs ← locP df (numCol df.ibov) anchor
      Except.ok ⟨days, some (PVal.psub (PVal.pdiv ce cs) (PVal.num 1),
                             PVal.psub (PVal.pdiv be bs) (PVal.num 1))⟩

/-! ## Helper lemmas -/

theorem idxMin_none {l : List ℤ} (h : idxMin l = none) : l = [] := by
  cases l with
  | nil => rfl
  | cons a l =>
    rw [idxMin] at h
    cases h2 : idxMin l <;> rw [h2] at h <;> simp at h

theorem idxMax_none {l : List ℤ} (h : idxMax l = none) : l = [] := by
  cases l with
  | nil => rfl
  | cons a l =>
    rw [idxMax] at h
    cases h2 : idxMax l <;> rw [h2] at h <;> simp at h

theorem idxMin_sound {l : List ℤ} {m : ℤ} (h : idxMin l = some m) :
    m ∈ l ∧ ∀ x ∈ l, m ≤ x := by
  induction l generalizing m with
  | nil => simp [idxMin] at h
  | cons a l ih =>
    rw [idxMin] at h
    cases hl : idxMin l with
    | none =>
      rw [hl] at h
      simp at h
      have hnil := idxMin_none hl
      subst hnil
      refine ⟨by simp [h], ?_⟩
      intro x hx
      simp at hx
      omega
    | some m0 =>
      rw [hl] at h
      simp at h
      obtain ⟨hm0, hle⟩ := ih hl
      have hmin : m = min a m0 := h.symm
      constructor
      · rcases le_total a m0 with hc | hc
        · have hma : m = a := by rw [hmin, min_eq_left hc]
          rw [hma]
          exact List.mem_cons_self a l
        · have hmm : m = m0 := by rw [hmin, min_eq_right hc]
          rw [hmm]
          exact List.mem_cons_of_mem a hm0
      · intro x hx
        rcases List.mem_cons.mp hx with h1 | h1
        · rw [h1, hmin]
          exact min_le_left a m0
        · calc m = min a m0 := hmin
            _ ≤ m0 := min_le_right a m0
            _ ≤ x := hle x h1

theorem idxMin_isSome {l : List ℤ} (h : l ≠ []) : ∃ m, idxMin l = some m := by
  cases l with
  | nil => exact absurd rfl h
  | cons a l =>
    rw [idxMin]
    cases idxMin l with
    | none => exact ⟨a, rfl⟩
    | some m0 => exact ⟨min a m0, rfl⟩

theorem idxMax_sound {l : List ℤ} {m : ℤ} (h : idxMax l = some m) :
    m ∈ l ∧ ∀ x ∈ l, x ≤ m := by
  induction l generalizing m with
  | nil => simp [idxMax] at h
  | cons a l ih =>
    rw [idxMax] at h
    cases hl : idxMax l with
    | none =>
      rw [hl] at h
      simp at h
      have hnil := idxMax_none hl
      subst hnil
      refine ⟨by simp [h], ?_⟩
      intro x hx
      simp at hx
      omega
    | some m0 =>
      rw [hl] at h
      simp at h
      obtain ⟨hm0, hle⟩ := ih hl
      have hmax : m = max a m0 := h.symm
      constructor
      · rcases le_total a m0 with hc | hc
        · have hmm : m = m0 := by rw [hmax, max_eq_right hc]
          rw [hmm]
          exact List.mem_cons_of_mem a hm0
        · have hma : m = a := by rw [hmax, max_eq_left hc]
          rw [hma]
          exact List.mem_cons_self a l
      · intro x hx
        rcases List.mem_cons.mp hx with h1 | h1
        · rw [h1, hmax]
          exact le_max_left a m0
        · calc x ≤ m0 := hle x h1
            _ ≤ max a m0 := le_max_right a m0
            _ = m := hmax.symm

theorem idxMax_isSome {l : List ℤ} (h : l ≠ []) : ∃ m, idxMax l = some m := by
  cases l with
  | nil => exact absurd rfl h
  | cons a l =>
    rw [idxMax]
    cases idxMax l with
    | none => exact ⟨a, rfl⟩
    | some m0 => exact ⟨max a m0, rfl⟩

theorem idxMin_eq_none {l : List ℤ} (h : l = []) : idxMin l = none := by
  subst h
  rfl

theorem idxMax_eq_none {l : List ℤ} (h : l = []) : idxMax l = none := by
  subst h
  rfl

theorem locDate_of_mem {ds : List ℤ} {d : ℤ} (h : d ∈ ds) :
    ∃ i, locDate ds d = some i ∧ i < ds.length ∧ ds.getD i 0 = d := by
  induction ds with
  | nil => simp at h
  | cons a ds ih =>
    by_cases ha : a = d
    · exact ⟨0, by simp [locDate, ha], by simp, by simp [ha]⟩
    · have hd : d ∈ ds := by
        rcases List.mem_cons.mp h with h1 | h1
        · exact absurd h1.symm ha
        · exact h1
      obtain ⟨i, hi, hlen, hget⟩ := ih hd
      exact ⟨i + 1, by simp [locDate, ha, hi], by simpa using hlen, by simpa using hget⟩

theorem locP_of_mem (df : DFrame) {d : ℤ} (col : List PVal) (h : d ∈ df.dates) :
    ∃ i, locP df col d = Except.ok (col.getD i PVal.nan) ∧
      i < df.dates.length ∧ df.dates.getD i 0 = d := by
  obtain ⟨i, hi, hlen, hget⟩ := locDate_of_mem h
  exact ⟨i, by simp [locP, hi], hlen, hget⟩

theorem resolve_mes_mem {ds : List ℤ} {ref : ℤ} (h : ref ∈ ds) :
    ∃ s, resolve_mes ds ref = some s ∧ s ∈ ds := by
  have hmem : ref ∈ ds.filter (fun d => yearOf d = yearOf ref ∧ monthOf d = monthOf ref) := by
    simp [List.mem_filter, h]
  obtain ⟨m, hm⟩ := idxMin_isSome (List.ne_nil_of_mem hmem)
  exact ⟨m, hm, List.mem_of_mem_filter (idxMin_sound hm).1⟩

theorem resolve_ano_mem {ds : List ℤ} {ref : ℤ} (h : ref ∈ ds) :
    ∃ s, resolve_ano ds ref = some s ∧ s ∈ ds := by
  have hmem : ref ∈ ds.filter (fun d => yearOf d = yearOf ref) := by
    simp [List.mem_filter, h]
  obtain ⟨m, hm⟩ := idxMin_isSome (List.ne_nil_of_mem hmem)
  exact ⟨m, hm, List.mem_of_mem_filter (idxMin_sound hm).1⟩

theorem resolve_12m_mem {ds : List ℤ} {ref : ℤ} (h : ref ∈ ds) :
    ∃ s, resolve_12m ds ref = some s ∧ s ∈ ds := by
  have hmem : ref ∈ ds.filter (fun d => ref - 365 ≤ d) := by
    simp only [List.mem_filter, decide_eq_true_eq]
    exact ⟨h, by omega⟩
  obtain ⟨m, hm⟩ := idxMin_isSome (List.ne_nil_of_mem hmem)
  exact ⟨m, hm, List.mem_of_mem_filter (idxMin_sound hm).1⟩

theorem resolve_inicio_mem {ds : List ℤ} (h : ds ≠ []) :
    ∃ s, resolve_inicio ds = some s ∧ s ∈ ds := by
  obtain ⟨m, hm⟩ := idxMin_isSome h
  exact ⟨m, hm, (idxMin_sound hm).1⟩

theorem resolve_prev_week_mem {ds : List ℤ} {ref a : ℤ}
    (h : resolve_prev_week ds ref = some a) : a ∈ ds :=
  List.mem_of_mem_filter (idxMax_sound h).1

/-- `windowVar` cannot raise once both boundary dates are index members. -/
theorem windowVar_ok (df : DFrame) (col : List PVal) {s ref : ℤ}
    (hs : s ∈ df.dates) (href : ref ∈ df.dates) :
    ∃ v, windowVar df col (some s) ref = Except.ok v := by
  obtain ⟨i, hi, _, _⟩ := locP_of_mem df col href
  obtain ⟨j, hj, _, _⟩ := locP_of_mem df col hs
  refine ⟨PVal.psub (PVal.pdiv (col.getD i PVal.nan) (col.getD j PVal.nan)) (PVal.num 1), ?_⟩
  simp only [windowVar]
  rw [hi, hj]
  rfl

theorem numCol_getD {xs : List ℚ} {i : ℕ} (h : i < xs.length) :
    (numCol xs).getD i PVal.nan = PVal.num (xs.getD i 0) := by
  induction xs generalizing i with
  | nil => simp at h
  | cons a xs ih =>
    cases i with
    | zero => simp [numCol]
    | succ i =>
      simp only [numCol, List.map_cons, List.getD_cons_succ]
      exact ih (by simpa using h)

theorem divCols_getD {xs ys : List ℚ} {i : ℕ} (h1 : i < xs.length) (h2 : i < ys.length) :
    (divCols xs ys).getD i PVal.nan =
      PVal.pdiv (PVal.num (xs.getD i 0)) (PVal.num (ys.getD i 0)) := by
  induction xs generalizing ys i with
  | nil => simp at h1
  | cons a xs ih =>
    cases ys with
    | nil => simp at h2
    | cons b ys =>
      cases i with
      | zero => simp [divCols]
      | succ i =>
        simp only [divCols, List.zipWith_cons_cons, List.getD_cons_succ]
        exact ih (by simpa using h1) (by simpa using h2)

/-- A finite positive cell divided by a finite positive cell, minus one, is a
finite cell. -/
theorem var_ratio_num {a b : ℚ} (hb : b ≠ 0) :
    PVal.psub (PVal.pdiv (PVal.num a) (PVal.num b)) (PVal.num 1) =
      PVal.num (a / b - 1) := by
  simp [PVal.pdiv, PVal.psub, PVal.padd, PVal.pneg, hb]
  ring

/-- Division of a positive finite cell by a zero cell yields +infinity. -/
theorem pdiv_num_zero {a : ℚ} (ha : 0 < a) :
    PVal.pdiv (PVal.num a) (PVal.num 0) = PVal.inf := by
  simp [PVal.pdiv, ha]

/-- Division of finite cells with a nonzero denominator stays finite. -/
theorem pdiv_num_of_ne {a b : ℚ} (hb : b ≠ 0) :
    PVal.pdiv (PVal.num a) (PVal.num b) = PVal.num (a / b) := by
  simp [PVal.pdiv, hb]

/-- Subtracting a finite cell from +infinity stays +infinity. -/
theorem psub_inf_num (b : ℚ) : PVal.psub PVal.inf (PVal.num b) = PVal.inf := rfl

/-- Characterisation of `pctAux`: position `i` holds the ratio of element `i`
to its positional predecessor (the seed for `i = 0`), minus 1. -/
theorem pctAux_getD {xs : List PVal} (prev : PVal) {i : ℕ} (h : i < xs.length) :
    (pctAux prev xs).getD i PVal.nan =
      PVal.psub (PVal.pdiv (xs.getD i PVal.nan)
        (if i = 0 then prev else xs.getD (i - 1) PVal.nan)) (PVal.num 1) := by
  induction xs generalizing prev i with
  | nil => simp at h
  | cons x xs ih =>
    cases i with
    | zero => simp [pctAux]
    | succ i =>
      simp only [pctAux, List.getD_cons_succ]
      rw [ih x (by simpa using h)]
      cases i with
      | zero => simp
      | succ i => simp

/-- `pct_change` computes each daily return against the positional
predecessor row. -/
theorem pct_change_getD {xs : List PVal} {i : ℕ} (h : i + 1 < xs.length) :
    (pct_change xs).getD (i + 1) PVal.nan =
      PVal.psub (PVal.pdiv (xs.getD (i + 1) PVal.nan) (xs.getD i PVal.nan))
        (PVal.num 1) := by
  cases xs with
  | nil => simp at h
  | cons x xs =>
    simp only [pct_change, List.getD_cons_succ]
    rw [pctAux_getD x (by simpa using h)]
    cases i with
    | zero => simp
    | succ i => simp

@[simp] theorem process_data_dates (df : DFrame) : (process_data df).dates = df.dates := rfl

@[simp] theorem process_data_pl (df : DFrame) : (process_data df).pl_mksf = df.pl_mksf := rfl

@[simp] theorem process_data_qtd (df : DFrame) : (process_data df).qtd_cotas = df.qtd_cotas := rfl

@[simp] theorem process_data_ibov (df : DFrame) : (process_data df).ibov = df.ibov := rfl

theorem process_data_cota (df : DFrame) :
    (process_data df).cotaMKSF = divCols df.pl_mksf df.qtd_cotas := rfl

theorem process_data_ibovDaily (df : DFrame) :
    (process_data df).ibovDaily = pct_change (numCol df.ibov) := rfl

theorem process_data_mksfDaily (df : DFrame) :
    (process_data df).mksfDaily = pct_change (divCols df.pl_mksf df.qtd_cotas) := rfl

theorem process_data_ibovAcum (df : DFrame) :
    (process_data df).ibovAcum = cumRet (pct_change (numCol df.ibov)) := rfl

theorem process_data_mksfAcum (df : DFrame) :
    (process_data df).mksfAcum = cumRet (pct_change (divCols df.pl_mksf df.qtd_cotas)) := rfl

/-- `windowVar` yields a finite number when both boundary dates are index
members and the column holds positive finite values throughout. -/
theorem windowVar_num {df : DFrame} {col : List PVal} {s ref : ℤ}
    (hcol : ∀ i, i < df.dates.length → ∃ q : ℚ, 0 < q ∧ col.getD i PVal.nan = PVal.num q)
    (hs : s ∈ df.dates) (href : ref ∈ df.dates) :
    ∃ v : ℚ, windowVar df col (some s) ref = Except.ok (PVal.num v) := by
  obtain ⟨i, hi, hilen, _⟩ := locP_of_mem df col href
  obtain ⟨j, hj, hjlen, _⟩ := locP_of_mem df col hs
  obtain ⟨qe, _, hqe⟩ := hcol i hilen
  obtain ⟨qs, hqs0, hqs⟩ := hcol j hjlen
  have hw : windowVar df col (some s) ref =
      Except.ok (PVal.psub (PVal.pdiv (col.getD i PVal.nan) (col.getD j PVal.nan))
        (PVal.num 1)) := by
    simp only [windowVar]
    rw [hi, hj]
    rfl
  refine ⟨qe / qs - 1, ?_⟩
  rw [hw, hqe, hqs, var_ratio_num (ne_of_gt hqs0)]

/-! ## Concrete frames used as witnesses and counterexamples -/

/-- The spec's end-to-end example series (two trading days). -/
def dfEx2 : DFrame :=
  { dates := [mkDate 2024 1 2, mkDate 2024 1 3],
    pl_mksf := [100, 102], qtd_cotas := [100, 100], ibov := [1000, 1010],
    cotaMKSF := [], ibovDaily := [], mksfDaily := [],
    ibovAcum := [], mksfAcum := [], spread := [] }

/-- The same two observations presented in descending date order. -/
def dfEx2rev : DFrame :=
  { dates := [mkDate 2024 1 3, mkDate 2024 1 2],
    pl_mksf := [102, 100], qtd_cotas := [100, 100], ibov := [1010, 1000],
    cotaMKSF := [], ibovDaily := [], mksfDaily := [],
    ibovAcum := [], mksfAcum := [], spread := [] }

/-- The boundary-fallback example series of the spec:
Tue 2024-01-02, Thu 2024-01-04, Wed 2024-01-10. -/
def dsBoundary : List ℤ := [mkDate 2024 1 2, mkDate 2024 1 4, mkDate 2024 1 10]

/-- A reference date whose trailing-365-day cutoff is exactly 2024-01-05. -/
def refBoundary : ℤ := mkDate 2024 1 5 + 365

/-! ## Claim C1 -/

/-- C1, counterexample.  On the spec's own example — series dates
[2024-01-02, 2024-01-04, 2024-01-10] and trailing-window cutoff 2024-01-05 —
the code's LTM start resolution (`df.loc[cutoff:].index.min()`, app.py lines
421-422) returns 2024-01-10, not the claimed 2024-01-04: it is not a
maximum-date-at-or-before-cutoff policy. -/
theorem c1_counterexample :
    resolve_12m dsBoundary refBoundary ≠ some (mkDate 2024 1 4) ∧
    resolve_12m dsBoundary refBoundary = some (mkDate 2024 1 10) := by decide

/-- C1, amended.  The trailing-365-day rule resolves the start boundary to
the *minimum* series date at or after `reference_date - 365 days` (a
first-known-value-at-or-after-cutoff policy), whenever any series date lies
at or after the cutoff; on the example series with cutoff 2024-01-05 it
returns 2024-01-10. -/
theorem c1_ltm_start_is_min_after_cutoff (ds : List ℤ) (ref : ℤ)
    (h : ∃ d ∈ ds, ref - 365 ≤ d) :
    ∃ m, resolve_12m ds ref = some m ∧ m ∈ ds ∧ ref - 365 ≤ m ∧
      ∀ d ∈ ds, ref - 365 ≤ d → m ≤ d := by
  obtain ⟨d0, hd0, hc⟩ := h
  have hmem : d0 ∈ ds.filter (fun d => ref - 365 ≤ d) := by
    simp only [List.mem_filter, decide_eq_true_eq]
    exact ⟨hd0, hc⟩
  obtain ⟨m, hm⟩ := idxMin_isSome (List.ne_nil_of_mem hmem)
  obtain ⟨hmmem, hmle⟩ := idxMin_sound hm
  have h1 : m ∈ ds := List.mem_of_mem_filter hmmem
  have h2 : ref - 365 ≤ m := by
    have := List.of_mem_filter hmmem
    simpa using this
  refine ⟨m, hm, h1, h2, ?_⟩
  intro d hd hdc
  refine hmle d ?_
  simp only [List.mem_filter, decide_eq_true_eq]
  exact ⟨hd, hdc⟩

/-- Witness for the amended C1 at the spec's example input. -/
theorem c1_ltm_start_is_min_after_cutoff_witness :
    (∃ d ∈ dsBoundary, refBoundary - 365 ≤ d) ∧
    (∃ m, resolve_12m dsBoundary refBoundary = some m ∧ m ∈ dsBoundary ∧
      refBoundary - 365 ≤ m ∧ ∀ d ∈ dsBoundary, refBoundary - 365 ≤ d → m ≤ d) :=
  ⟨by decide, c1_ltm_start_is_min_after_cutoff dsBoundary refBoundary (by decide)⟩

/-! ## Claim C5 -/

/-- A short series (Mon 2024-06-03, Tue 2024-06-04) whose first date is well
after the trailing-365-day cutoff of its own maximum date. -/
def dsShort : List ℤ := [mkDate 2024 6 3, mkDate 2024 6 4]

/-- C5, counterexample.  For a series whose first date is later than
`reference_date - 365 days`, the code's LTM start resolution does *not*
return none (NaT): it returns the series' first date. -/
theorem c5_counterexample :
    (∀ d ∈ dsShort, mkDate 2024 6 4 - 365 < d) ∧
    resolve_12m dsShort (mkDate 2024 6 4) = some (mkDate 2024 6 3) ∧
    resolve_12m dsShort (mkDate 2024 6 4) ≠ none := by decide

/-- C5, amended.  When the trailing-window cutoff predates every series date
(in particular when it predates the series' first date), `resolve_start` for
the LTM rule degrades to the since-inception boundary: it returns the series'
minimum date, not none — the LTM window is silently computed from inception. -/
theorem c5_ltm_cutoff_before_series_gives_inception (ds : List ℤ) (ref : ℤ)
    (hne : ds ≠ []) (h : ∀ d ∈ ds, ref - 365 ≤ d) :
    resolve_12m ds ref = idxMin ds ∧ resolve_12m ds ref ≠ none := by
  have hfil : ds.filter (fun d => ref - 365 ≤ d) = ds := by
    refine List.filter_eq_self.mpr ?_
    intro a ha
    simpa using h a ha
  obtain ⟨m, hm⟩ := idxMin_isSome hne
  constructor
  · rw [resolve_12m, hfil]
  · rw [resolve_12m, hfil, hm]
    simp

/-- Witness for the amended C5. -/
theorem c5_ltm_cutoff_before_series_gives_inception_witness :
    (dsShort ≠ [] ∧ ∀ d ∈ dsShort, mkDate 2024 6 4 - 365 ≤ d) ∧
    (resolve_12m dsShort (mkDate 2024 6 4) = idxMin dsShort ∧
      resolve_12m dsShort (mkDate 2024 6 4) ≠ none) :=
  ⟨⟨by decide, by decide⟩,
    c5_ltm_cutoff_before_series_gives_inception dsShort (mkDate 2024 6 4)
      (by decide) (by decide)⟩

/-! ## Claim C3 -/

/-- A series crossing a year boundary: one date in ISO week (2024, 1) and
three in ISO weeks (2025, 2). -/
def dsYearWrap : List ℤ :=
  [mkDate 2024 1 3, mkDate 2025 1 6, mkDate 2025 1 7, mkDate 2025 1 8]

/-- C3, evaluation of the code at the failing input.  With reference date
Wed 2025-01-08 the previous week is ISO (2025, 1), bare week number 1; the
series has no date in that week, but the code's anchor resolution (app.py
lines 347-350) matches on the bare week number alone and returns 2024-01-03 —
a date from ISO week (2024, 1), a year earlier.  The claimed
(ISO-year, ISO-week)-pair matching would find no anchor here. -/
theorem c3_bare_week_number_matches_wrong_year :
    resolve_prev_week dsYearWrap (mkDate 2025 1 8) = some (mkDate 2024 1 3) ∧
    isoYearWeek (mkDate 2025 1 8 - 7) = (2025, 1) ∧
    isoYearWeek (mkDate 2024 1 3) = (2024, 1) ∧
    (∀ d ∈ dsYearWrap, isoYearWeek d ≠ isoYearWeek (mkDate 2025 1 8 - 7)) := by
  decide

/-! ## Claim C8 -/

/-- C8.  When no series date carries the anchor ISO week number (the ISO week
number of `reference_date - 1 week`), the weekly table is built without any
total row: the anchor resolves to NaT, the guard on app.py line 373 is false,
and only the five day rows are produced — no exception either. -/
theorem c8_weekly_total_omitted (df : DFrame) (ref : ℤ)
    (h : ∀ d ∈ df.dates, isoWeekNum d ≠ isoWeekNum (ref - 7)) :
    buildWeekly df ref = Except.ok ⟨(data_semana ref).map (weekCell df), none⟩ := by
  have hfil : df.dates.filter (fun d => isoWeekNum d = isoWeekNum (ref - 7)) = [] := by
    refine List.filter_eq_nil_iff.mpr ?_
    intro a ha
    simpa using h a ha
  simp [buildWeekly, resolve_prev_week, hfil, idxMax]

/-- A series holding only the five weekdays Mon 2025-03-10 .. Fri 2025-03-14
of the reference date's own ISO week. -/
def dfCurWeek : DFrame :=
  { dates := [mkDate 2025 3 10, mkDate 2025 3 11, mkDate 2025 3 12,
              mkDate 2025 3 13, mkDate 2025 3 14],
    pl_mksf := [100, 101, 102, 103, 104], qtd_cotas := [100, 100, 100, 100, 100],
    ibov := [1000, 1001, 1002, 1003, 1004],
    cotaMKSF := [], ibovDaily := [], mksfDaily := [],
    ibovAcum := [], mksfAcum := [], spread := [] }

/-- Witness for C8: a series containing only the current week's five days
produces a weekly table with no total row. -/
theorem c8_weekly_total_omitted_witness :
    (∀ d ∈ dfCurWeek.dates, isoWeekNum d ≠ isoWeekNum (mkDate 2025 3 14 - 7)) ∧
    buildWeekly dfCurWeek (mkDate 2025 3 14) =
      Except.ok ⟨(data_semana (mkDate 2025 3 14)).map (weekCell dfCurWeek), none⟩ :=
  ⟨by decide, c8_weekly_total_omitted dfCurWeek (mkDate 2025 3 14) (by decide)⟩

/-! ## Claim C2 -/

/-- C2, counterexample.  On the spec's own end-to-end example series the
derived cumulative returns at the first date are NaN (null), not 0: the first
daily return is NaN, `1 + NaN` is NaN, and `cumprod` (skipna) keeps the NaN
in place, so `MKSFacum`/`IBOVacum` start at NaN, refuting
"`fund_cum` at the first date equals 0". -/
theorem c2_counterexample :
    (process_data dfEx2).mksfAcum.head? ≠ some (PVal.num 0) ∧
    (process_data dfEx2).mksfAcum.head? = some PVal.nan ∧
    (process_data dfEx2).ibovAcum.head? = some PVal.nan := by decide

/-- C2, amended.  For every series with at least one observation (hence for
all with at least two), the derived daily returns *and* the cumulative
returns at the series' first date are all null (NaN); the cumulative chain is
0-based only from the second date onward. -/
theorem c2_first_date_cells_are_null (df : DFrame)
    (h1 : df.pl_mksf ≠ []) (h2 : df.qtd_cotas ≠ []) (h3 : df.ibov ≠ []) :
    (process_data df).mksfDaily.head? = some PVal.nan ∧
    (process_data df).ibovDaily.head? = some PVal.nan ∧
    (process_data df).mksfAcum.head? = some PVal.nan ∧
    (process_data df).ibovAcum.head? = some PVal.nan := by
  obtain ⟨dts, pl, qt, ib, x1, x2, x3, x4, x5, x6⟩ := df
  simp only at h1 h2 h3
  obtain ⟨a, pl, rfl⟩ := List.exists_cons_of_ne_nil h1
  obtain ⟨b, qt, rfl⟩ := List.exists_cons_of_ne_nil h2
  obtain ⟨c, ib, rfl⟩ := List.exists_cons_of_ne_nil h3
  refine ⟨?_, ?_, ?_, ?_⟩ <;>
    simp [process_data_mksfDaily, process_data_ibovDaily, process_data_mksfAcum,
      process_data_ibovAcum, divCols, numCol, pct_change, cumRet, cumprodAux,
      PVal.padd, PVal.psub, PVal.pneg]

/-- Witness for the amended C2 at the spec's end-to-end example series. -/
theorem c2_first_date_cells_are_null_witness :
    (dfEx2.pl_mksf ≠ [] ∧ dfEx2.qtd_cotas ≠ [] ∧ dfEx2.ibov ≠ []) ∧
    ((process_data dfEx2).mksfDaily.head? = some PVal.nan ∧
      (process_data dfEx2).ibovDaily.head? = some PVal.nan ∧
      (process_data dfEx2).mksfAcum.head? = some PVal.nan ∧
      (process_data dfEx2).ibovAcum.head? = some PVal.nan) :=
  ⟨⟨by decide, by decide, by decide⟩,
    c2_first_date_cells_are_null dfEx2 (by decide) (by decide) (by decide)⟩

/-! ## Claim C7 -/

/-- The example series with zero shares outstanding on the first date. -/
def dfZeroShares : DFrame :=
  { dates := [mkDate 2024 1 2, mkDate 2024 1 3],
    pl_mksf := [100, 102], qtd_cotas := [0, 100], ibov := [1000, 1010],
    cotaMKSF := [], ibovDaily := [], mksfDaily := [],
    ibovAcum := [], mksfAcum := [], spread := [] }

/-- C7, counterexample.  With `shares(d) = 0` and a positive NAV, the derived
unit value at `d` is +infinity (numpy float division by zero), not null; the
rest of the series is still derived (the second unit value is 102/100). -/
theorem c7_counterexample :
    (process_data dfZeroShares).cotaMKSF.head? = some PVal.inf ∧
    (process_data dfZeroShares).cotaMKSF.head? ≠ some PVal.nan ∧
    (process_data dfZeroShares).cotaMKSF.getD 1 PVal.nan = PVal.num (51 / 50) := by
  have h0 : PVal.pdiv (PVal.num 100) (PVal.num 0) = PVal.inf :=
    pdiv_num_zero (by norm_num)
  have h1 : PVal.pdiv (PVal.num 102) (PVal.num 100) = PVal.num (51 / 50) := by
    rw [pdiv_num_of_ne (by norm_num)]
    norm_num
  have hcota : (process_data dfZeroShares).cotaMKSF =
      [PVal.inf, PVal.num (51 / 50)] := by
    simp [process_data_cota, dfZeroShares, divCols, h0, h1]
  rw [hcota]
  refine ⟨rfl, by simp, rfl⟩

/-- C7, amended.  A zero `shares(d)` with positive NAV makes the unit value
at `d` +infinity (a NaN only when the NAV is zero too), with no exception:
every other date with nonzero shares still gets its finite unit value
`nav/shares`.  The same division policy applies to a zero benchmark level:
the next day's benchmark return is +infinity, not null. -/
theorem c7_zero_shares_gives_infinity (df : DFrame) (i : ℕ)
    (hi1 : i < df.pl_mksf.length) (hi2 : i < df.qtd_cotas.length)
    (hz : df.qtd_cotas.getD i 0 = 0) (hp : 0 < df.pl_mksf.getD i 0) :
    (process_data df).cotaMKSF.getD i PVal.nan = PVal.inf ∧
    (∀ j, j < df.pl_mksf.length → j < df.qtd_cotas.length →
      df.qtd_cotas.getD j 0 ≠ 0 →
      (process_data df).cotaMKSF.getD j PVal.nan =
        PVal.num (df.pl_mksf.getD j 0 / df.qtd_cotas.getD j 0)) ∧
    (∀ k, k + 1 < df.ibov.length → df.ibov.getD k 0 = 0 →
      0 < df.ibov.getD (k + 1) 0 →
      (process_data df).ibovDaily.getD (k + 1) PVal.nan = PVal.inf) := by
  refine ⟨?_, ?_, ?_⟩
  · rw [process_data_cota, divCols_getD hi1 hi2, hz, pdiv_num_zero hp]
  · intro j hj1 hj2 hjz
    rw [process_data_cota, divCols_getD hj1 hj2, pdiv_num_of_ne hjz]
  · intro k hk hkz hkp
    have hk1 : k + 1 < (numCol df.ibov).length := by simpa [numCol] using hk
    have hkb : k < df.ibov.length := by omega
    rw [process_data_ibovDaily, pct_change_getD hk1, numCol_getD hk,
      numCol_getD hkb, hkz, pdiv_num_zero hkp, psub_inf_num]

/-- Witness for the amended C7 at the zero-shares example. -/
theorem c7_zero_shares_gives_infinity_witness :
    (0 < dfZeroShares.pl_mksf.length ∧ 0 < dfZeroShares.qtd_cotas.length ∧
      dfZeroShares.qtd_cotas.getD 0 0 = 0 ∧ 0 < dfZeroShares.pl_mksf.getD 0 0) ∧
    ((process_data dfZeroShares).cotaMKSF.getD 0 PVal.nan = PVal.inf ∧
      (∀ j, j < dfZeroShares.pl_mksf.length → j < dfZeroShares.qtd_cotas.length →
        dfZeroShares.qtd_cotas.getD j 0 ≠ 0 →
        (process_data dfZeroShares).cotaMKSF.getD j PVal.nan =
          PVal.num (dfZeroShares.pl_mksf.getD j 0 / dfZeroShares.qtd_cotas.getD j 0)) ∧
      (∀ k, k + 1 < dfZeroShares.ibov.length → dfZeroShares.ibov.getD k 0 = 0 →
        0 < dfZeroShares.ibov.getD (k + 1) 0 →
        (process_data dfZeroShares).ibovDaily.getD (k + 1) PVal.nan = PVal.inf)) :=
  ⟨⟨by decide, by decide, by decide, by decide⟩,
    c7_zero_shares_gives_infinity dfZeroShares 0 (by decide) (by decide)
      (by decide) (by decide)⟩

/-! ## Claim C6 -/

/-- C6, counterexample.  `process_data` never sorts: handed the same two
observations in descending date order it derives *different* figures for the
same date than it does for the ascending presentation — at 2024-01-03 the
sorted input yields the daily return 1/50 while the reversed input yields
NaN, so the derived series is not invariant under input order. -/
theorem c6_counterexample :
    locP (process_data dfEx2rev) (process_data dfEx2rev).mksfDaily (mkDate 2024 1 3) ≠
      locP (process_data dfEx2) (process_data dfEx2).mksfDaily (mkDate 2024 1 3) ∧
    locP (process_data dfEx2rev) (process_data dfEx2rev).mksfDaily (mkDate 2024 1 3) =
      Except.ok PVal.nan ∧
    locP (process_data dfEx2) (process_data dfEx2).mksfDaily (mkDate 2024 1 3) =
      Except.ok (PVal.num (1 / 50)) := by
  have hdne : mkDate 2024 1 2 ≠ mkDate 2024 1 3 := by decide
  have hc100 : PVal.pdiv (PVal.num 100) (PVal.num 100) = PVal.num 1 := by
    rw [pdiv_num_of_ne (by norm_num)]
    norm_num
  have hc102 : PVal.pdiv (PVal.num 102) (PVal.num 100) = PVal.num (51 / 50) := by
    rw [pdiv_num_of_ne (by norm_num)]
    norm_num
  have hratio : PVal.psub (PVal.pdiv (PVal.num (51 / 50)) (PVal.num 1)) (PVal.num 1) =
      PVal.num (1 / 50) := by
    rw [pdiv_num_of_ne (by norm_num)]
    show PVal.num _ = _
    norm_num
  have hrev : locP (process_data dfEx2rev) (process_data dfEx2rev).mksfDaily
      (mkDate 2024 1 3) = Except.ok PVal.nan := by
    simp [locP, locDate, dfEx2rev, process_data_mksfDaily, divCols, pct_change]
  have hsort : locP (process_data dfEx2) (process_data dfEx2).mksfDaily
      (mkDate 2024 1 3) = Except.ok (PVal.num (1 / 50)) := by
    simp [locP, locDate, dfEx2, process_data_mksfDaily, divCols, pct_change,
      pctAux, hdne, hc100, hc102, hratio]
  refine ⟨?_, hrev, hsort⟩
  rw [hrev, hsort]
  simp

/-- C6, amended.  Sorting is *not* part of `process_data`: the rows are
processed exactly in the order given, and every daily return is computed
against the positional predecessor row (`pct_change`), so the derived series
is order-dependent and matches the §3 definitions only when the input is
already sorted ascending by date. -/
theorem c6_daily_returns_are_positional (df : DFrame) (i : ℕ)
    (h1 : i + 1 < df.pl_mksf.length) (h2 : i + 1 < df.qtd_cotas.length) :
    (process_data df).mksfDaily.getD (i + 1) PVal.nan =
      PVal.psub (PVal.pdiv ((process_data df).cotaMKSF.getD (i + 1) PVal.nan)
        ((process_data df).cotaMKSF.getD i PVal.nan)) (PVal.num 1) := by
  have hlen : i + 1 < (divCols df.pl_mksf df.qtd_cotas).length := by
    simp only [divCols, List.length_zipWith]
    omega
  rw [process_data_mksfDaily, process_data_cota, pct_change_getD hlen]

/-- Witness for the amended C6 at the example series. -/
theorem c6_daily_returns_are_positional_witness :
    (0 + 1 < dfEx2.pl_mksf.length ∧ 0 + 1 < dfEx2.qtd_cotas.length) ∧
    (process_data dfEx2).mksfDaily.getD (0 + 1) PVal.nan =
      PVal.psub (PVal.pdiv ((process_data dfEx2).cotaMKSF.getD (0 + 1) PVal.nan)
        ((process_data dfEx2).cotaMKSF.getD 0 PVal.nan)) (PVal.num 1) :=
  ⟨⟨by decide, by decide⟩,
    c6_daily_returns_are_positional dfEx2 0 (by decide) (by decide)⟩

/-! ## Claim C9 -/

theorem getD_append_len {α : Type} (l : List α) (a d : α) :
    (l ++ [a]).getD l.length d = a := by
  induction l with
  | nil => rfl
  | cons x l ih => simp [ih]

theorem set_append_len {α : Type} (l : List α) (a b : α) :
    (l ++ [a]).set l.length b = l ++ [b] := by
  induction l with
  | nil => rfl
  | cons x l ih => simp [List.set, ih]

theorem heapMod_append (l : Heap) (x : DFrame) (f : DFrame → DFrame) :
    heapMod (l ++ [x]) l.length f = l ++ [f x] := by
  rw [heapMod, getD_append_len, set_append_len]

/-- C9.  `process_data` does not mutate its input: at the heap level, the
call allocates a copy (`df.copy()`, app.py line 144), performs all six column
writes on that fresh object, and returns it — every object the caller held
before the call is unchanged (`take h.length` returns the original heap), and
the returned frame is a pure function (`process_data`) of the input frame, so
two invocations on the same series produce identical derived figures. -/
theorem c9_process_data_is_pure (h : Heap) (r : ℕ) :
    (process_data_heap h r).1.take h.length = h ∧
    (process_data_heap h r).1.getD (process_data_heap h r).2 default =
      process_data (h.getD r default) := by
  have hrep : (process_data_heap h r).1 =
      h ++ [process_data (h.getD r default)] := by
    simp only [process_data_heap]
    rw [heapMod_append, heapMod_append, heapMod_append, heapMod_append,
      heapMod_append, heapMod_append]
    rfl
  have hr2 : (process_data_heap h r).2 = h.length := rfl
  constructor
  · rw [hrep]
    exact List.take_left h _
  · rw [hrep, hr2, getD_append_len]

/-! ## Claim C4 -/

/-- C4.  With the reference date taken as the series maximum (as `main` does:
`ultima_data = df.index.max()`), neither summary computation ever surfaces an
exception: the four-window table always evaluates to a result (its resolved
boundaries are always index members, so the `.loc` lookups cannot raise), the
weekly table always evaluates to a result, and when the previous-week anchor
is unresolvable (NaT) the weekly total row is omitted — a null/absent cell,
not a crash. -/
theorem c4_no_exception_null_degradation (df : DFrame) (ref : ℤ)
    (h : idxMax df.dates = some ref) :
    (∃ l, resumo df ref = Except.ok l) ∧
    (∃ t, buildWeekly df ref = Except.ok t) ∧
    (resolve_prev_week df.dates ref = none →
      buildWeekly df ref = Except.ok ⟨(data_semana ref).map (weekCell df), none⟩) := by
  have href : ref ∈ df.dates := (idxMax_sound h).1
  have hne : df.dates ≠ [] := List.ne_nil_of_mem href
  obtain ⟨s1, hs1, hs1m⟩ := resolve_mes_mem href
  obtain ⟨s2, hs2, hs2m⟩ := resolve_ano_mem href
  obtain ⟨s3, hs3, hs3m⟩ := resolve_12m_mem href
  obtain ⟨s4, hs4, hs4m⟩ := resolve_inicio_mem hne
  obtain ⟨v1, hv1⟩ := windowVar_ok df df.cotaMKSF hs1m href
  obtain ⟨v2, hv2⟩ := windowVar_ok df (numCol df.ibov) hs1m href
  obtain ⟨v3, hv3⟩ := windowVar_ok df df.cotaMKSF hs2m href
  obtain ⟨v4, hv4⟩ := windowVar_ok df (numCol df.ibov) hs2m href
  obtain ⟨v5, hv5⟩ := windowVar_ok df df.cotaMKSF hs3m href
  obtain ⟨v6, hv6⟩ := windowVar_ok df (numCol df.ibov) hs3m href
  obtain ⟨v7, hv7⟩ := windowVar_ok df df.cotaMKSF hs4m href
  obtain ⟨v8, hv8⟩ := windowVar_ok df (numCol df.ibov) hs4m href
  refine ⟨⟨[(v1, v2), (v3, v4), (v5, v6), (v7, v8)], ?_⟩, ?_, ?_⟩
  · simp only [resumo, hs1, hs2, hs3, hs4, hv1, hv2, hv3, hv4, hv5, hv6, hv7, hv8]
    rfl
  · cases hpw : resolve_prev_week df.dates ref with
    | none =>
      refine ⟨⟨(data_semana ref).map (weekCell df), none⟩, ?_⟩
      simp only [buildWeekly, hpw]
    | some a =>
      have ham : a ∈ df.dates := resolve_prev_week_mem hpw
      obtain ⟨i1, hi1, _, _⟩ := locP_of_mem df df.cotaMKSF href
      obtain ⟨i2, hi2, _, _⟩ := locP_of_mem df df.cotaMKSF ham
      obtain ⟨i3, hi3, _, _⟩ := locP_of_mem df (numCol df.ibov) href
      obtain ⟨i4, hi4, _, _⟩ := locP_of_mem df (numCol df.ibov) ham
      refine ⟨⟨(data_semana ref).map (weekCell df),
        some (PVal.psub (PVal.pdiv (df.cotaMKSF.getD i1 PVal.nan)
                (df.cotaMKSF.getD i2 PVal.nan)) (PVal.num 1),
              PVal.psub (PVal.pdiv ((numCol df.ibov).getD i3 PVal.nan)
                ((numCol df.ibov).getD i4 PVal.nan)) (PVal.num 1))⟩, ?_⟩
      simp only [buildWeekly, hpw, hi1, hi2, hi3, hi4]
      rfl
  · intro hpw
    simp only [buildWeekly, hpw]

/-- Witness for C4: the end-to-end example series with its maximum date as
reference. -/
theorem c4_no_exception_null_degradation_witness :
    idxMax dfEx2.dates = some (mkDate 2024 1 3) ∧
    ((∃ l, resumo dfEx2 (mkDate 2024 1 3) = Except.ok l) ∧
      (∃ t, buildWeekly dfEx2 (mkDate 2024 1 3) = Except.ok t) ∧
      (resolve_prev_week dfEx2.dates (mkDate 2024 1 3) = none →
        buildWeekly dfEx2 (mkDate 2024 1 3) =
          Except.ok ⟨(data_semana (mkDate 2024 1 3)).map (weekCell dfEx2), none⟩)) :=
  ⟨by decide, c4_no_exception_null_degradation dfEx2 (mkDate 2024 1 3) (by decide)⟩

/-! ## Claim C10 -/

/-- C10.  When the reference date is the series' maximum date and every NAV,
share count and benchmark level is positive, all four standard windows (MTD,
YTD, LTM, ITD) resolve to an anchor date, and all eight window returns in the
summary table are finite numbers — never null — for every non-empty series. -/
theorem c10_all_windows_numeric (df : DFrame) (ref : ℤ)
    (hl1 : df.pl_mksf.length = df.dates.length)
    (hl2 : df.qtd_cotas.length = df.dates.length)
    (hl3 : df.ibov.length = df.dates.length)
    (hpos : ∀ i, i < df.dates.length →
      0 < df.pl_mksf.getD i 0 ∧ 0 < df.qtd_cotas.getD i 0 ∧ 0 < df.ibov.getD i 0)
    (h : idxMax df.dates = some ref) :
    (resolve_mes (process_data df).dates ref).isSome ∧
    (resolve_ano (process_data df).dates ref).isSome ∧
    (resolve_12m (process_data df).dates ref).isSome ∧
    (resolve_inicio (process_data df).dates).isSome ∧
    ∃ l, resumo (process_data df) ref = Except.ok l ∧ l.length = 4 ∧
      ∀ p ∈ l, (∃ a : ℚ, p.1 = PVal.num a) ∧ (∃ b : ℚ, p.2 = PVal.num b) := by
  have href : ref ∈ (process_data df).dates := (idxMax_sound h).1
  have hne : (process_data df).dates ≠ [] := List.ne_nil_of_mem href
  have hcolCota : ∀ i, i < (process_data df).dates.length →
      ∃ q : ℚ, 0 < q ∧ (process_data df).cotaMKSF.getD i PVal.nan = PVal.num q := by
    intro i hi
    obtain ⟨hp, hq, _⟩ := hpos i hi
    refine ⟨df.pl_mksf.getD i 0 / df.qtd_cotas.getD i 0, div_pos hp hq, ?_⟩
    have hb1 : i < df.pl_mksf.length := by
      have : i < df.dates.length := hi
      omega
    have hb2 : i < df.qtd_cotas.length := by
      have : i < df.dates.length := hi
      omega
    rw [process_data_cota, divCols_getD hb1 hb2, pdiv_num_of_ne (ne_of_gt hq)]
  have hcolIbov : ∀ i, i < (process_data df).dates.length →
      ∃ q : ℚ, 0 < q ∧ (numCol (process_data df).ibov).getD i PVal.nan = PVal.num q := by
    intro i hi
    obtain ⟨_, _, hb⟩ := hpos i hi
    have hb3 : i < df.ibov.length := by
      have : i < df.dates.length := hi
      omega
    exact ⟨df.ibov.getD i 0, hb, numCol_getD hb3⟩
  obtain ⟨s1, hs1, hs1m⟩ := resolve_mes_mem href
  obtain ⟨s2, hs2, hs2m⟩ := resolve_ano_mem href
  obtain ⟨s3, hs3, hs3m⟩ := resolve_12m_mem href
  obtain ⟨s4, hs4, hs4m⟩ := resolve_inicio_mem hne
  obtain ⟨v1, hv1⟩ := windowVar_num hcolCota hs1m href
  obtain ⟨v2, hv2⟩ := windowVar_num hcolIbov hs1m href
  obtain ⟨v3, hv3⟩ := windowVar_num hcolCota hs2m href
  obtain ⟨v4, hv4⟩ := windowVar_num hcolIbov hs2m href
  obtain ⟨v5, hv5⟩ := windowVar_num hcolCota hs3m href
  obtain ⟨v6, hv6⟩ := windowVar_num hcolIbov hs3m href
  obtain ⟨v7, hv7⟩ := windowVar_num hcolCota hs4m href
  obtain ⟨v8, hv8⟩ := windowVar_num hcolIbov hs4m href
  refine ⟨by rw [hs1]; rfl, by rw [hs2]; rfl, by rw [hs3]; rfl, by rw [hs4]; rfl,
    ⟨[(PVal.num v1, PVal.num v2), (PVal.num v3, PVal.num v4),
      (PVal.num v5, PVal.num v6), (PVal.num v7, PVal.num v8)], ?_, rfl, ?_⟩⟩
  · simp only [resumo, hs1, hs2, hs3, hs4, hv1, hv2, hv3, hv4, hv5, hv6, hv7, hv8]
    rfl
  · intro p hp
    simp only [List.mem_cons, List.not_mem_nil, or_false] at hp
    rcases hp with rfl | rfl | rfl | rfl <;>
      exact ⟨⟨_, rfl⟩, ⟨_, rfl⟩⟩

/-- Witness for C10 at the end-to-end example series (all inputs positive,
reference date = series maximum). -/
theorem c10_all_windows_numeric_witness :
    (dfEx2.pl_mksf.length = dfEx2.dates.length ∧
      dfEx2.qtd_cotas.length = dfEx2.dates.length ∧
      dfEx2.ibov.length = dfEx2.dates.length ∧
      (∀ i, i < dfEx2.dates.length →
        0 < dfEx2.pl_mksf.getD i 0 ∧ 0 < dfEx2.qtd_cotas.getD i 0 ∧
          0 < dfEx2.ibov.getD i 0) ∧
      idxMax dfEx2.dates = some (mkDate 2024 1 3)) ∧
    ((resolve_mes (process_data dfEx2).dates (mkDate 2024 1 3)).isSome ∧
      (resolve_ano (process_data dfEx2).dates (mkDate 2024 1 3)).isSome ∧
      (resolve_12m (process_data dfEx2).dates (mkDate 2024 1 3)).isSome ∧
      (resolve_inicio (process_data dfEx2).dates).isSome ∧
      ∃ l, resumo (process_data dfEx2) (mkDate 2024 1 3) = Except.ok l ∧
        l.length = 4 ∧
        ∀ p ∈ l, (∃ a : ℚ, p.1 = PVal.num a) ∧ (∃ b : ℚ, p.2 = PVal.num b)) :=
  ⟨⟨by decide, by decide, by decide, by decide, by decide⟩,
    c10_all_windows_numeric dfEx2 (mkDate 2024 1 3) (by decide) (by decide)
      (by decide) (by decide) (by decide)⟩

end MekasfiDash
